import Mathlib

/-!
Verification of `BitBucketConverter.py` (B1 → B0 / A8 radio-frame converter).

The Python program is shallowly embedded: Python strings become `List Char`
(`PyStr`), `str.split()` / `str.upper()` / `str.replace` / f-string `02X`
formatting / `int(x, 16)` are modelled by executable Lean functions below,
exceptions (`ValueError` from `int`, `IndexError` from list subscripts)
become an explicit `Except PyErr` result, and the regular-expression
extractor `B1_RE.findall` is modelled by a hand-rolled matcher with the
same semantics on the pattern actually used.  ASCII inputs are assumed
throughout (the modelled case maps and whitespace classes are the ASCII
fragments of Python's Unicode-aware ones).
-/

/-- Python strings, modelled as lists of characters. -/
abbrev PyStr := List Char

/-- Shorthand turning a Lean string literal into a `PyStr`. -/
def toL (s : String) : PyStr := s.toList

/-- ASCII fragment of Python's `str.split()` / `\s` whitespace class. -/
def isPySpace (c : Char) : Bool :=
  c = ' ' ∨ c = '\t' ∨ c = '\n' ∨ c = '\r' ∨ c = '\x0b' ∨ c = '\x0c'

/-- Python `str.upper()` (ASCII fragment). -/
def pyUpperL (s : PyStr) : PyStr := s.map Char.toUpper

/-- Auxiliary recursion for `pySplitWs`; `fuel` bounds the scan length. -/
def pySplitWsAux : Nat → PyStr → List PyStr
  | 0, _ => []
  | _, [] => []
  | fuel + 1, c :: rest =>
    if isPySpace c then pySplitWsAux fuel rest
    else
      (c :: rest).takeWhile (fun d => ¬ isPySpace d) ::
        pySplitWsAux fuel ((c :: rest).dropWhile (fun d => ¬ isPySpace d))

/-- Python `str.split()` with no argument: maximal runs of non-whitespace,
empty pieces discarded.  The fuel `s.length` suffices because every step of
`pySplitWsAux` consumes at least one character. -/
def pySplitWs (s : PyStr) : List PyStr := pySplitWsAux s.length s

/-- Value of one hexadecimal digit character, both cases accepted. -/
def hexVal (c : Char) : Option Nat :=
  if '0' ≤ c ∧ c ≤ '9' then some (c.toNat - 48)
  else if 'a' ≤ c ∧ c ≤ 'f' then some (c.toNat - 87)
  else if 'A' ≤ c ∧ c ≤ 'F' then some (c.toNat - 55)
  else none

mutual

/-- Digits of a base-16 literal after the first one: single underscores are
allowed between digits (Python `int(x, 16)` underscore rule). -/
def hexDigitsAux : PyStr → Nat → Option Nat
  | [], acc => some acc
  | c :: rest, acc =>
    if c = '_' then hexAfterUnderscore rest acc
    else
      match hexVal c with
      | some v => hexDigitsAux rest (acc * 16 + v)
      | none => none

/-- After an underscore a digit must follow (no trailing or doubled
underscore). -/
def hexAfterUnderscore : PyStr → Nat → Option Nat
  | [], _ => none
  | c :: rest, acc =>
    match hexVal c with
    | some v => hexDigitsAux rest (acc * 16 + v)
    | none => none

end

/-- A nonempty digit run: must start with a digit (no leading underscore). -/
def parseHexDigits : PyStr → Option Nat
  | [] => none
  | c :: rest =>
    match hexVal c with
    | some v => hexDigitsAux rest v
    | none => none

/-- The part of a base-16 literal after an optional sign: an optional
`0x`/`0X` prefix (one underscore may follow the prefix), then digits. -/
def parseHexBody (r : PyStr) : Option Nat :=
  match r with
  | '0' :: x :: rest =>
    if x = 'x' ∨ x = 'X' then
      match rest with
      | '_' :: r2 => parseHexDigits r2
      | r2 => parseHexDigits r2
    else parseHexDigits ('0' :: x :: rest)
  | r => parseHexDigits r

/-- Strip ASCII whitespace from both ends. -/
def stripWs (s : PyStr) : PyStr :=
  ((s.dropWhile isPySpace).reverse.dropWhile isPySpace).reverse

/-- Python `int(x, 16)`: `None` models the `ValueError` raised on a
malformed literal. -/
def parseHexInt (s : PyStr) : Option ℤ :=
  match stripWs s with
  | '-' :: r => (parseHexBody r).map (fun n => -(n : ℤ))
  | '+' :: r => (parseHexBody r).map (fun n => (n : ℤ))
  | r => (parseHexBody r).map (fun n => (n : ℤ))

/-- Python list subscript `l[i]` with negative-index wrap-around; `none`
models the `IndexError`. -/
def pyGetI (l : List PyStr) (i : ℤ) : Option PyStr :=
  if 0 ≤ i then l.get? i.toNat
  else if 0 ≤ i + l.length then l.get? (i + l.length).toNat else none

/-- Uppercase hexadecimal digit character for a value `0 ≤ d < 16`. -/
def hexDigitChar (d : Nat) : Char :=
  if d < 10 then Char.ofNat (48 + d) else Char.ofNat (55 + d)

/-- Digits of `n` in base 16, most significant first, pushed onto `acc`;
structural recursion on a fuel argument so that the kernel can evaluate it
(`n` itself is always enough fuel, since `n / 16 < n`). -/
def natToHexAux : Nat → Nat → PyStr → PyStr
  | _, 0, acc => acc
  | 0, _ + 1, acc => acc
  | fuel + 1, n + 1, acc =>
    natToHexAux fuel ((n + 1) / 16) (hexDigitChar ((n + 1) % 16) :: acc)

/-- The digit rendering with the canonical fuel. -/
def natToHexR (n : Nat) (acc : PyStr) : PyStr := natToHexAux n n acc

/-- Uppercase hexadecimal rendering of a natural number (Python `"%X"`). -/
def natToHex (n : Nat) : PyStr := if n = 0 then toL "0" else natToHexR n []

/-- Left-pad with `'0'` to width `w`. -/
def padZero (w : Nat) (l : PyStr) : PyStr := List.replicate (w - l.length) '0' ++ l

/-- Python `f"{n:02X}"` for a natural number. -/
def fmt02X (n : Nat) : PyStr := padZero 2 (natToHex n)

/-- Python `f"{i:02X}"` for an `int`: a sign counts toward the width of 2,
so negative values are rendered as `-` followed by the bare digits. -/
def fmtInt02X (i : ℤ) : PyStr :=
  if i < 0 then '-' :: padZero 1 (natToHex i.natAbs) else fmt02X i.toNat

/-- Python `s[i:i+2]` chunking used both for B0 byte formatting and for the
nibble split of the data section; a trailing odd character forms a 1-chunk. -/
def chunk2 : PyStr → List PyStr
  | [] => []
  | [c] => [[c]]
  | a :: b :: rest => [a, b] :: chunk2 rest

/-- Python `" ".join(...)`. -/
def joinSpace (l : List PyStr) : PyStr := List.intercalate (toL " ") l

/-- Python `data_section[1:-1]` (never an error, even on short strings). -/
def pyInterior (s : PyStr) : PyStr := (s.drop 1).dropLast

/-- Python `str.replace(pat, rep)` for a nonempty pattern: every
non-overlapping occurrence is replaced, scanning left to right.  (The
program only ever replaces the nonempty pattern `"xx"`; for an empty
pattern this model returns the string unchanged, unlike Python.) -/
def pyReplaceF : Nat → PyStr → PyStr → PyStr → PyStr
  | _, s, [], _ => s
  | _, [], _ :: _, _ => []
  | 0, s, _ :: _, _ => s
  | fuel + 1, c :: rest, p :: ps, rep =>
    if (p :: ps).isPrefixOf (c :: rest) then
      rep ++ pyReplaceF fuel ((c :: rest).drop (p :: ps).length) (p :: ps) rep
    else
      c :: pyReplaceF fuel rest (p :: ps) rep

/-- Entry point with the canonical fuel `s.length` (each scan step consumes
at least one character, so the fuel never runs out). -/
def pyReplace (s pat rep : PyStr) : PyStr := pyReplaceF s.length s pat rep

/-! ### IEEE-754 binary64 model for the duty-cycle computation

`int((high_val / total) * 100)` in the program divides two Python ints
(CPython's correctly-rounded `float` true division), multiplies by 100
(again correctly rounded) and truncates toward zero.  The two roundings are
modelled exactly on unnormalised nonnegative fractions `n / d` (numerator
and denominator as `Nat`), with the sign carried separately — IEEE-754
rounding is symmetric, so rounding the magnitude is exact.  Overflow cannot
occur for the values this pipeline produces. -/

/-- Floor of the base-2 logarithm, by structural recursion on a fuel
argument (`n` is always enough fuel, since `n / 2 < n`). -/
def natLog2F : Nat → Nat → Nat
  | 0, _ => 0
  | fuel + 1, n => if 2 ≤ n then natLog2F fuel (n / 2) + 1 else 0

/-- `⌊log₂ n⌋` (0 for `n = 0`), kernel-evaluable. -/
def natLog2 (n : Nat) : Nat := natLog2F n n

/-- Is `2 ^ e ≤ n / d` (for `d > 0`), with an integer exponent? -/
def pow2Le (e : ℤ) (n d : Nat) : Bool :=
  if 0 ≤ e then 2 ^ e.toNat * d ≤ n else d ≤ 2 ^ (-e).toNat * n

/-- The binade of `n / d > 0`: the `e` with `2 ^ e ≤ n / d < 2 ^ (e + 1)`.
For `2 ^ k ≤ n < 2 ^ (k + 1)` and `2 ^ l ≤ d < 2 ^ (l + 1)` the quotient
lies in `(2 ^ (k - l - 1), 2 ^ (k - l + 1))`, so only two candidates need
to be tested. -/
def binadeExp (n d : Nat) : ℤ :=
  let k : ℤ := natLog2 n
  let l : ℤ := natLog2 d
  if pow2Le (k - l) n d then k - l else k - l - 1

/-- Round `n / d` to the nearest integer, ties to even (`d > 0`). -/
def rneMag (n d : Nat) : Nat :=
  let f := n / d
  let r := n % d
  if 2 * r < d then f
  else if d < 2 * r then f + 1
  else if f % 2 = 0 then f else f + 1

/-- Round-to-nearest-even at binary64 precision of the fraction `n / d`:
result as an unnormalised fraction whose denominator is a power of two.
53 significand bits in the normal range, the fixed 2⁻¹⁰⁷⁴ grid below it. -/
def rnd64Mag (n d : Nat) : Nat × Nat :=
  let e := binadeExp n d
  let p : ℤ := if e < -1022 then 1074 else 52 - e
  if 0 ≤ p then (rneMag (n * 2 ^ p.toNat) d, 2 ^ p.toNat)
  else (rneMag n (d * 2 ^ (-p).toNat) * 2 ^ (-p).toNat, 1)

/-- One duty byte: `f"{int((a / total) * 100):02X}"` under the binary64
model (two correctly-rounded steps, then truncation toward zero). -/
def dutyByte (a total : ℤ) : PyStr :=
  let q1 := rnd64Mag a.natAbs total.natAbs
  let q2 := rnd64Mag (q1.1 * 100) q1.2
  let t : Nat := q2.1 / q2.2
  fmtInt02X (if a < 0 then -(t : ℤ) else (t : ℤ))

/-- The duty-cycle pair of the A8 encoder: both bytes computed when
`total > 0`, and the `"32"` / `"32"` default otherwise. -/
def pyDuty (hi lo : ℤ) : PyStr × PyStr :=
  let total := hi + lo
  if 0 < total then (dutyByte hi total, dutyByte lo total)
  else (toL "32", toL "32")

/-! ### The B1 → B0 / A8 conversion (`b1_to_b0` in the source) -/

/-- Uncaught Python exceptions of the modelled fragment. -/
inductive PyErr where
  | valueError : PyErr
  | indexError : PyErr
deriving DecidableEq, Repr

/-- Nibble decode loop: `"12"` appends bit `"0"`, `"21"` appends bit `"1"`,
anything else is skipped. -/
def bitsOfNibbles : List PyStr → PyStr
  | [] => []
  | n :: rest =>
    if n = toL "12" then '0' :: bitsOfNibbles rest
    else if n = toL "21" then '1' :: bitsOfNibbles rest
    else bitsOfNibbles rest

/-- Numeric value of a decoded bit character. -/
def bitVal (c : Char) : Nat := if c = '1' then 1 else 0

/-- Bit-packing loop: one uppercase hex digit per complete group of 4 bits;
a trailing group of 1–3 bits produces nothing. -/
def hexOfBits : PyStr → PyStr
  | a :: b :: c :: d :: rest =>
    hexDigitChar (8 * bitVal a + 4 * bitVal b + 2 * bitVal c + bitVal d) :: hexOfBits rest
  | _ => []

/-- The bucket-copying loop `for i in range(num_buckets): ... parts[3 + i]`,
failing like Python at the first missing index. -/
def collectBucketsGo (parts : List PyStr) : Nat → Nat → Option (List PyStr)
  | _, 0 => some []
  | i, k + 1 =>
    match parts.get? i with
    | none => none
    | some t =>
      match collectBucketsGo parts (i + 1) k with
      | none => none
      | some r => some (t :: r)

/-- Bucket tokens `parts[3], …, parts[3 + num_buckets - 1]`; a negative
`num_buckets` yields an empty range exactly as Python `range` does. -/
def collectBuckets (parts : List PyStr) (nbI : ℤ) : Option (List PyStr) :=
  collectBucketsGo parts 3 nbI.toNat

/-- Result of a successful conversion: the two emitted commands plus the
intermediate values the source keeps in locals / its debug dictionary. -/
structure ConvOut where
  buckets : List PyStr
  b0Pre : PyStr
  lengthVal : Nat
  b0Str : PyStr
  b0Formatted : PyStr
  dataSection : PyStr
  bits : PyStr
  hexData : PyStr
  syncHigh : PyStr
  syncLow : PyStr
  bitHighTime : PyStr
  bitLowTime : PyStr
  bitHighDuty : PyStr
  bitLowDuty : PyStr
  bitCountHex : PyStr
  a8Command : PyStr
deriving DecidableEq, Repr, Inhabited

/-- Assembly of the conversion result from the extracted components,
following the source line by line (b0 build, length fix-up, nibble decode,
bit packing, duty cycles, bit count, A8 assembly). -/
def mkConvOut (parts : List PyStr) (repeatVal : ℤ) (bucketToks : List PyStr)
    (data trailer syncHigh syncLow bitHighTime bitLowTime : PyStr)
    (highVal lowVal : ℤ) : ConvOut :=
  let b0parts := [toL "AA", toL "B0", toL "xx", parts.getD 2 [], fmtInt02X repeatVal]
      ++ bucketToks ++ [data, trailer]
  let b0Pre := b0parts.flatten
  let lengthVal := b0Pre.length / 2 - 4
  let b0Str := pyReplace b0Pre (toL "xx") (fmt02X lengthVal)
  let bits := bitsOfNibbles (chunk2 (pyInterior data))
  let hexData := hexOfBits bits
  let duties := pyDuty highVal lowVal
  let bitCountHex := fmt02X bits.length
  let a8data := [toL "7F", syncHigh, syncLow, bitHighTime, duties.1, bitLowTime,
      duties.2, bitCountHex, hexData]
  { buckets := bucketToks
    b0Pre := b0Pre
    lengthVal := lengthVal
    b0Str := b0Str
    b0Formatted := joinSpace (chunk2 b0Str)
    dataSection := data
    bits := bits
    hexData := hexData
    syncHigh := syncHigh
    syncLow := syncLow
    bitHighTime := bitHighTime
    bitLowTime := bitLowTime
    bitHighDuty := duties.1
    bitLowDuty := duties.2
    bitCountHex := bitCountHex
    a8Command := toL "AA A8 " ++ fmt02X (a8data.flatten.length / 2) ++ toL " "
      ++ joinSpace a8data ++ toL " 55" }

/-- `b1_to_b0` on an already-split token list.  `.ok none` is the
`(None, None, "Not a valid B1 frame")` early return; `.error` is an
uncaught `ValueError` / `IndexError`, in the order the source raises them. -/
def convertParts (parts : List PyStr) (repeatVal : ℤ) : Except PyErr (Option ConvOut) :=
  if parts.length < 4 ∨ pyUpperL (parts.getD 1 []) ≠ toL "B1" then .ok none
  else
    match parseHexInt (parts.getD 2 []) with
    | none => .error .valueError
    | some nbI =>
      match collectBuckets parts nbI with
      | none => .error .indexError
      | some bucketToks =>
        match pyGetI parts (3 + nbI) with
        | none => .error .indexError
        | some data =>
          match pyGetI parts (3 + nbI + 1) with
          | none => .error .indexError
          | some trailer =>
            match pyGetI parts 6 with
            | none => .error .indexError
            | some syncHigh =>
              match pyGetI parts 3 with
              | none => .error .indexError
              | some syncLow =>
                match pyGetI parts 5 with
                | none => .error .indexError
                | some bitHighTime =>
                  match pyGetI parts 4 with
                  | none => .error .indexError
                  | some bitLowTime =>
                    match parseHexInt bitHighTime with
                    | none => .error .valueError
                    | some highVal =>
                      match parseHexInt bitLowTime with
                      | none => .error .valueError
                      | some lowVal =>
                        .ok (some (mkConvOut parts repeatVal bucketToks data
                          trailer syncHigh syncLow bitHighTime bitLowTime
                          highVal lowVal))

/-- The source's `b1_to_b0(b1_data, repeat_val)`. -/
def b1_to_b0 (b1_data : PyStr) (repeatVal : ℤ) : Except PyErr (Option ConvOut) :=
  convertParts (pySplitWs b1_data) repeatVal

/-- Projection used to state concrete facts about a successful conversion
without binding the result. -/
def getConv (e : Except PyErr (Option ConvOut)) : ConvOut :=
  match e with
  | .ok (some r) => r
  | _ => default

/-! ### Frame selection (`main`, non-`--all` branch) -/

/-- Occurrence count of a value in a list (the `Counter` tally). -/
def countEq (l : List PyStr) (x : PyStr) : Nat := (l.filter (fun y => y = x)).length

/-- First element achieving the maximal value of `f`; this is what
`Counter(...).most_common(1)[0]` returns, since `heapq.nlargest` keeps the
first-inserted key among equal counts. -/
def argmaxFirst (l : List PyStr) (f : PyStr → Nat) : Option PyStr :=
  match l with
  | [] => none
  | x :: xs =>
    match argmaxFirst xs f with
    | none => some x
    | some b => if f b ≤ f x then some x else some b

/-- Body of the first selection loop: the `data_section` contributed by one
match, `.ok none` when the match is filtered out, `.error` when
`int(parts[2], 16)` raises or the data subscript fails. -/
def candDataTok (m : PyStr) : Except PyErr (Option PyStr) :=
  let parts := pySplitWs m
  if parts.length < 4 ∨ pyUpperL (parts.getD 1 []) ≠ toL "B1" then .ok none
  else
    match parseHexInt (parts.getD 2 []) with
    | none => .error .valueError
    | some nb =>
      if 3 + nb < (parts.length : ℤ) then
        match pyGetI parts (3 + nb) with
        | none => .error .indexError
        | some d => .ok (some d)
      else .ok none

/-- The `data_sections` list accumulated by the first selection loop. -/
def dataSectionsOf : List PyStr → Except PyErr (List PyStr)
  | [] => .ok []
  | m :: ms =>
    match candDataTok m with
    | .error e => .error e
    | .ok d =>
      match dataSectionsOf ms with
      | .error e => .error e
      | .ok rest => .ok (match d with | some x => x :: rest | none => rest)

/-- Second selection loop: first match whose data section (note: no `B1`
marker re-check here) equals `most_common_data`; `.ok none` when the loop
finishes without a `break`. -/
def scanLoop (mcd : PyStr) : List PyStr → Except PyErr (Option PyStr)
  | [] => .ok none
  | m :: ms =>
    let parts := pySplitWs m
    if parts.length < 4 then scanLoop mcd ms
    else
      match parseHexInt (parts.getD 2 []) with
      | none => .error .valueError
      | some nb =>
        if 3 + nb < (parts.length : ℤ) then
          match pyGetI parts (3 + nb) with
          | none => .error .indexError
          | some d => if d = mcd then .ok (some m) else scanLoop mcd ms
        else scanLoop mcd ms

/-- The Selector: mode of the `data_section` values (first-inserted wins on
ties), then the first match carrying it; falls back to the first match when
no candidate contributed a data section. -/
def selectFrame (ms : List PyStr) : Except PyErr (Option PyStr) :=
  match dataSectionsOf ms with
  | .error e => .error e
  | .ok ds =>
    match argmaxFirst ds (countEq ds) with
    | none => .ok ms.head?
    | some mcd => scanLoop mcd ms

/-- The frame selected by `selectFrame`, for binder-free statements. -/
def selOf (ms : List PyStr) : PyStr :=
  match selectFrame ms with
  | .ok (some m) => m
  | _ => []

/-- Candidate filter of the first selection loop, as a Boolean predicate:
the frames on which `candDataTok` accepts with a nonnegative bucket count. -/
def validCandB (m : PyStr) : Bool :=
  let parts := pySplitWs m
  decide (4 ≤ parts.length) && decide (pyUpperL (parts.getD 1 []) = toL "B1") &&
    (match parseHexInt (parts.getD 2 []) with
     | some nb => decide (0 ≤ nb) && decide (3 + nb < (parts.length : ℤ))
     | none => false)

/-- The data-section token of a candidate (meaningful when `validCandB`). -/
def dataTokOf (m : PyStr) : PyStr :=
  let parts := pySplitWs m
  match parseHexInt (parts.getD 2 []) with
  | some nb => parts.getD (3 + nb).toNat []
  | none => []

/-! ### The extractor `B1_RE.findall`

The pattern is `"RfRaw"\s*:\s*\{\s*"Data"\s*:\s*"([^"]*B1[^"]*)"` with
`re.IGNORECASE`.  Because `[^"]` cannot cross a quote, a match at a given
position succeeds exactly when the literal/whitespace prefix matches there
and the following quoted run contains `B1` case-insensitively, and the
capture is that whole quoted run.  `findall` scans positions left to right
and resumes after each match. -/

/-- Case-insensitive literal match (ASCII), returning the rest on success. -/
def litCI : PyStr → PyStr → Option PyStr
  | [], s => some s
  | _ :: _, [] => none
  | p :: ps, c :: s => if c.toLower = p.toLower then litCI ps s else none

/-- Skip `\s*` (ASCII fragment). -/
def dropWs (s : PyStr) : PyStr := s.dropWhile isPySpace

/-- `\s*` followed by a case-insensitive literal. -/
def afterTok (pat : String) (s : PyStr) : Option PyStr := litCI (toL pat) (dropWs s)

/-- Does the string contain `B1` case-insensitively? (`1` has no case.) -/
def containsB1 : PyStr → Bool
  | 'B' :: '1' :: _ => true
  | 'b' :: '1' :: _ => true
  | _ :: rest => containsB1 rest
  | [] => false

/-- One attempt of the compiled pattern at the current position: on success,
the captured group and the remainder of the text after the closing quote. -/
def tryRfRaw (s : PyStr) : Option (PyStr × PyStr) :=
  match litCI (toL "\"rfraw\"") s with
  | none => none
  | some s1 =>
    match afterTok ":" s1 with
    | none => none
    | some s2 =>
      match afterTok "\x7b" s2 with
      | none => none
      | some s3 =>
        match afterTok "\"data\"" s3 with
        | none => none
        | some s4 =>
          match afterTok ":" s4 with
          | none => none
          | some s5 =>
            match afterTok "\"" s5 with
            | none => none
            | some s6 =>
              match s6.drop (s6.takeWhile (fun c => c ≠ '"')).length with
              | '"' :: r2 =>
                if containsB1 (s6.takeWhile (fun c => c ≠ '"')) then
                  some (s6.takeWhile (fun c => c ≠ '"'), r2)
                else none
              | _ => none

/-- Scan for all non-overlapping matches; every step consumes at least one
character, so `fuel = s.length` is enough. -/
def findAllAux : Nat → PyStr → List PyStr
  | 0, _ => []
  | _, [] => []
  | fuel + 1, c :: rest =>
    match tryRfRaw (c :: rest) with
    | some (cap, r) => cap :: findAllAux fuel r
    | none => findAllAux fuel rest

/-- `B1_RE.findall(text)`. -/
def pyFindAll (s : PyStr) : List PyStr := findAllAux s.length s

/-! ### Specification-side definitions and concrete frames used in claims -/

/-- The nibble-to-bit map in the specification's words: `"12" → 0`,
`"21" → 1`, any other nibble token dropped (for the refinement statement
about the decode loop `bitsOfNibbles`). -/
def nibbleBit (n : PyStr) : Option Char :=
  if n = toL "12" then some '0' else if n = toL "21" then some '1' else none

/-- A valid frame (single-character bucket-count token, 504-character data
section) whose computed B0 length `261` does not fit in one byte. -/
def frameLongLen : PyStr :=
  toL "AA B1 4 0100 0047 001D 0190 " ++ List.replicate 504 '1' ++ toL " 55"

/-- A valid frame whose data section decodes to 256 bits. -/
def frameManyBits : PyStr :=
  toL "AA B1 04 0100 0047 001D 0190 A" ++ (List.replicate 256 (toL "12")).flatten
    ++ toL "B 55"

/-- A valid frame with bucket count 2 and exactly 7 tokens. -/
def frameTwoBuckets : PyStr := toL "AA B1 02 0100 0047 1221 55"

/-- A valid frame whose `bit_high_time`/`bit_low_time` buckets are
`0x1D = 29` and `0x47 = 71`: the float duty computation truncates to 28
where exact arithmetic gives 29. -/
def frameDuty2971 : PyStr := toL "AA B1 04 0064 0047 001D 0190 1221 55"

/-- Candidate frames with pairwise-distinct data sections `9999`, `0102`,
`0103`, in that order. -/
def frameC : PyStr := toL "AA B1 04 0064 0047 001D 0190 9999 55"

/-- Second of the three all-distinct candidates (data `0102`). -/
def frameA : PyStr := toL "AA B1 04 0064 0047 001D 0190 0102 55"

/-- Third of the three all-distinct candidates (data `0103`). -/
def frameB : PyStr := toL "AA B1 04 0064 0047 001D 0190 0103 55"

/-- Mode-selection candidates: data `AAAA` twice, `BBBB` once. -/
def frameX : PyStr := toL "AA B1 04 0001 0002 0003 0004 AAAA 55"

/-- The odd-one-out candidate (data `BBBB`) for mode selection. -/
def frameY : PyStr := toL "AA B1 04 0001 0002 0003 0004 BBBB 55"

/-- The specification's end-to-end example frame. -/
def frameSpec : PyStr := toL "AA B1 04 012C 00C8 0190 0096 12211221122112211221 55"

/-- A frame whose data-section interior is the specification's bit-decode
example `1221122112211221` (wrapped in the sync characters `A`, `B`). -/
def frameBits55 : PyStr := toL "AA B1 04 0100 0200 0300 0400 A1221122112211221B 55"

/-- A frame with both timing buckets zero (`bit_high_time = bit_low_time =
0`), for the zero-duty default. -/
def frameZeroDuty : PyStr := toL "AA B1 04 0064 0000 0000 0190 1221 55"

/-! ## Theorems -/

/-- The decode loop is exactly a `filterMap` of the specification's
nibble-to-bit table. -/
theorem bitsOfNibbles_eq_filterMap (ns : List PyStr) :
    bitsOfNibbles ns = ns.filterMap nibbleBit := by
  induction ns with
  | nil => rfl
  | cons n rest ih =>
    have hne : toL "21" ≠ toL "12" := by decide
    by_cases h1 : n = toL "12"
    · simp [bitsOfNibbles, nibbleBit, h1, ih]
    · by_cases h2 : n = toL "21"
      · simp [bitsOfNibbles, nibbleBit, h1, h2, ih, hne]
      · simp [bitsOfNibbles, nibbleBit, h1, h2, ih]

/-- Bit packing emits one hex digit per complete group of four bits and
nothing for a trailing partial group. -/
theorem hexOfBits_length (l : PyStr) : (hexOfBits l).length = l.length / 4 := by
  match l with
  | a :: b :: c :: d :: rest =>
    have ih := hexOfBits_length rest
    simp only [hexOfBits, List.length_cons, ih]
    omega
  | [] => rfl
  | [_] => simp [hexOfBits]
  | [_, _] => simp [hexOfBits]
  | [_, _, _] => simp [hexOfBits]

/-- C3: for every data section, the A8 encoder splits the interior (all
characters but the first and last) into 2-character nibble tokens and
decodes them by `"12" → 0`, `"21" → 1`, skipping any other token without
error; bits are packed into hex digits only in complete groups of 4, a
trailing group of 1–3 bits being discarded, never padded; in particular an
interior of `1221122112211221` yields bits `01010101` and hex data `55`. -/
theorem C3_bit_decode :
    (∀ ds : PyStr, bitsOfNibbles (chunk2 (pyInterior ds))
        = (chunk2 (pyInterior ds)).filterMap nibbleBit) ∧
    (∀ bs : PyStr, (hexOfBits bs).length = bs.length / 4) ∧
    bitsOfNibbles (chunk2 (toL "1221122112211221")) = toL "01010101" ∧
    hexOfBits (toL "01010101") = toL "55" ∧
    b1_to_b0 frameBits55 20 = .ok (some (getConv (b1_to_b0 frameBits55 20))) ∧
    (getConv (b1_to_b0 frameBits55 20)).bits = toL "01010101" ∧
    (getConv (b1_to_b0 frameBits55 20)).hexData = toL "55" := by
  refine ⟨fun ds => bitsOfNibbles_eq_filterMap _, fun bs => hexOfBits_length bs,
    by decide, by decide, rfl, by decide, by decide⟩

/-- Hex digits round-trip through their character rendering. -/
theorem hexVal_hexDigitChar : ∀ r : Nat, r < 16 → hexVal (hexDigitChar r) = some r := by
  decide

/-- A rendered hex digit is never an underscore. -/
theorem hexDigitChar_ne_underscore : ∀ r : Nat, r < 16 → hexDigitChar r ≠ '_' := by
  decide

/-- The fuel argument of `natToHexAux` is irrelevant once it is at least
`n`. -/
theorem natToHexAux_fuel (fuel n : Nat) (acc : PyStr) (h : n ≤ fuel) :
    natToHexAux fuel n acc = natToHexR n acc := by
  match fuel, n with
  | fuel, 0 =>
    match fuel with
    | 0 => rfl
    | _ + 1 => rfl
  | 0, m + 1 => omega
  | f + 1, m + 1 =>
    rw [natToHexAux, natToHexAux_fuel f ((m + 1) / 16) _ (by omega)]
    conv_rhs => rw [natToHexR, natToHexAux]
    rw [natToHexAux_fuel m ((m + 1) / 16) _ (by omega)]
termination_by fuel
decreasing_by all_goals omega

/-- One unfolding step of the digit rendering. -/
theorem natToHexR_succ (m : Nat) (acc : PyStr) :
    natToHexR (m + 1) acc
      = natToHexR ((m + 1) / 16) (hexDigitChar ((m + 1) % 16) :: acc) := by
  rw [natToHexR, natToHexAux]
  exact natToHexAux_fuel m ((m + 1) / 16) _ (by omega)

/-- Length of the digit rendering splits into digit part and accumulator. -/
theorem natToHexR_length (n : Nat) (acc : PyStr) :
    (natToHexR n acc).length = (natToHexR n []).length + acc.length := by
  match n with
  | 0 => simp [natToHexR, natToHexAux]
  | m + 1 =>
    rw [natToHexR_succ, natToHexR_length ((m + 1) / 16) (hexDigitChar ((m + 1) % 16) :: acc)]
    conv_rhs => rw [natToHexR_succ, natToHexR_length ((m + 1) / 16) [hexDigitChar ((m + 1) % 16)]]
    simp
    omega
termination_by n
decreasing_by all_goals exact Nat.div_lt_self (Nat.succ_pos _) (by omega)

/-- One digit is appended per division step. -/
theorem natToHexR_nil_length_succ (n : Nat) (hn : 0 < n) :
    (natToHexR n []).length = (natToHexR (n / 16) []).length + 1 := by
  match n, hn with
  | m + 1, _ =>
    rw [natToHexR_succ, natToHexR_length ((m + 1) / 16) [hexDigitChar ((m + 1) % 16)]]
    simp

/-- Parsing the rendered digits of `n` on top of accumulator `a` shifts `a`
by the digit count and adds `n`. -/
theorem hexDigitsAux_natToHexR (n : Nat) (acc : PyStr) (a : Nat) :
    hexDigitsAux (natToHexR n acc) a
      = hexDigitsAux acc (a * 16 ^ (natToHexR n []).length + n) := by
  match n with
  | 0 => simp [natToHexR, natToHexAux]
  | m + 1 =>
    have hlt : (m + 1) % 16 < 16 := Nat.mod_lt _ (by omega)
    have hd := hexVal_hexDigitChar _ hlt
    have hund := hexDigitChar_ne_underscore _ hlt
    rw [natToHexR_succ, hexDigitsAux_natToHexR ((m + 1) / 16) (hexDigitChar ((m + 1) % 16) :: acc) a]
    simp only [hexDigitsAux, if_neg hund, hd]
    rw [natToHexR_nil_length_succ (m + 1) (by omega)]
    congr 1
    have hdm : 16 * ((m + 1) / 16) + (m + 1) % 16 = m + 1 := Nat.div_add_mod (m + 1) 16
    rw [pow_succ, ← mul_assoc]
    generalize a * 16 ^ (natToHexR ((m + 1) / 16) []).length = x
    omega
termination_by n
decreasing_by all_goals exact Nat.div_lt_self (Nat.succ_pos _) (by omega)

/-- The head of the rendered digits of a positive number is a hex digit. -/
theorem natToHexR_head (n : Nat) (acc : PyStr) (hn : 0 < n) :
    ∃ c rest v, natToHexR n acc = c :: rest ∧ hexVal c = some v := by
  match n, hn with
  | m + 1, _ =>
    rw [natToHexR_succ]
    rcases Nat.eq_zero_or_pos ((m + 1) / 16) with h0 | hpos
    · rw [h0, natToHexR]
      exact ⟨_, _, _, rfl, hexVal_hexDigitChar _ (Nat.mod_lt _ (by omega))⟩
    · exact natToHexR_head ((m + 1) / 16) _ hpos
termination_by n
decreasing_by all_goals exact Nat.div_lt_self (Nat.succ_pos _) (by omega)

/-- On a string starting with a hex digit, `parseHexDigits` agrees with the
accumulator form started at 0. -/
theorem parseHexDigits_eq_aux (c : Char) (rest : PyStr) (v : Nat) (hv : hexVal c = some v) :
    parseHexDigits (c :: rest) = hexDigitsAux (c :: rest) 0 := by
  have hund : c ≠ '_' := by
    intro h
    have h0 : hexVal '_' = (none : Option Nat) := by decide
    rw [h, h0] at hv
    exact Option.noConfusion hv
  simp only [parseHexDigits, hexDigitsAux, if_neg hund, hv]
  norm_num

/-- Round-trip: parsing the hex rendering of `n` gives back `n`. -/
theorem parseHexDigits_natToHex (n : Nat) : parseHexDigits (natToHex n) = some n := by
  rcases Nat.eq_zero_or_pos n with h0 | hpos
  · subst h0; decide
  · rw [natToHex, if_neg (by omega)]
    obtain ⟨c, rest, v, hcons, hv⟩ := natToHexR_head n [] hpos
    rw [hcons, parseHexDigits_eq_aux c rest v hv, ← hcons,
      hexDigitsAux_natToHexR n [] 0]
    simp [hexDigitsAux]

/-- The rendering of a positive number has at least one digit. -/
theorem natToHexR_nil_length_pos (n : Nat) (hn : 0 < n) :
    1 ≤ (natToHexR n []).length := by
  rw [natToHexR_nil_length_succ n hn]
  omega

/-- Round-trip through the 2-padded rendering. -/
theorem parseHexDigits_fmt02X (n : Nat) : parseHexDigits (fmt02X n) = some n := by
  rcases Nat.lt_or_ge n 16 with hlt | hge
  · exact (by decide : ∀ m : Nat, m < 16 → parseHexDigits (fmt02X m) = some m) n hlt
  · have h1 : 0 < n := by omega
    have h2 : 0 < n / 16 := Nat.div_pos (by omega) (by omega)
    have hlen : 2 ≤ (natToHex n).length := by
      rw [natToHex, if_neg (by omega), natToHexR_nil_length_succ n h1]
      have := natToHexR_nil_length_pos (n / 16) h2
      omega
    have hpad : fmt02X n = natToHex n := by
      rw [fmt02X, padZero, Nat.sub_eq_zero_of_le hlen]
      simp
    rw [hpad, parseHexDigits_natToHex]

set_option maxRecDepth 8000 in
/-- A value that fits in one byte renders as exactly two characters. -/
theorem fmt02X_length_of_le (n : Nat) (h : n ≤ 255) : (fmt02X n).length = 2 := by
  exact (by decide : ∀ m : Nat, m ≤ 255 → (fmt02X m).length = 2) n h

/-- A value beyond one byte renders as at least three characters. -/
theorem fmt02X_length_of_gt (n : Nat) (h : 256 ≤ n) : 3 ≤ (fmt02X n).length := by
  have h1 : 0 < n := by omega
  have h16 : 16 ≤ n / 16 := (Nat.le_div_iff_mul_le (by omega)).mpr (by omega)
  have h2 : 0 < n / 16 := by omega
  have h3 : 0 < n / 16 / 16 := Nat.div_pos h16 (by omega)
  have hlen : 3 ≤ (natToHex n).length := by
    rw [natToHex, if_neg (by omega), natToHexR_nil_length_succ n h1,
      natToHexR_nil_length_succ (n / 16) h2]
    have := natToHexR_nil_length_pos (n / 16 / 16) h3
    omega
  rw [fmt02X, padZero]
  simp
  omega

/-- Every character of the digit rendering is a hex digit character or
comes from the accumulator. -/
theorem natToHexR_chars (n : Nat) (acc : PyStr) (c : Char) (hc : c ∈ natToHexR n acc) :
    c ∈ acc ∨ ∃ r, r < 16 ∧ c = hexDigitChar r := by
  match n with
  | 0 =>
    rw [natToHexR, natToHexAux] at hc
    exact Or.inl hc
  | m + 1 =>
    rw [natToHexR_succ] at hc
    rcases natToHexR_chars ((m + 1) / 16) _ c hc with hmem | hdig
    · rcases List.mem_cons.mp hmem with hd | ha
      · exact Or.inr ⟨(m + 1) % 16, Nat.mod_lt _ (by omega), hd⟩
      · exact Or.inl ha
    · exact Or.inr hdig
termination_by n
decreasing_by all_goals exact Nat.div_lt_self (Nat.succ_pos _) (by omega)

/-- The bare hex rendering never contains a lowercase `x`. -/
theorem natToHex_no_x (n : Nat) (c : Char) (hc : c ∈ natToHex n) : c ≠ 'x' := by
  rw [natToHex] at hc
  by_cases h0 : n = 0
  · rw [if_pos h0] at hc
    have : c = '0' := by simpa [toL] using hc
    rw [this]; decide
  · rw [if_neg h0] at hc
    rcases natToHexR_chars n [] c hc with hmem | ⟨r, hr, hcr⟩
    · exact absurd hmem (List.not_mem_nil c)
    · rw [hcr]
      exact (by decide : ∀ r : Nat, r < 16 → hexDigitChar r ≠ 'x') r hr

/-- Zero padding never introduces a lowercase `x`. -/
theorem padZero_no_x (w n : Nat) (c : Char) (hc : c ∈ padZero w (natToHex n)) : c ≠ 'x' := by
  rw [padZero] at hc
  rcases List.mem_append.mp hc with hrep | hhex
  · rw [List.eq_of_mem_replicate hrep]
    decide
  · exact natToHex_no_x n c hhex

/-- `f"{n:02X}"` never contains a lowercase `x`. -/
theorem fmt02X_no_x (n : Nat) (c : Char) (hc : c ∈ fmt02X n) : c ≠ 'x' :=
  padZero_no_x 2 n c hc

/-- `f"{i:02X}"` for an `int` never contains a lowercase `x`. -/
theorem fmtInt02X_no_x (i : ℤ) (c : Char) (hc : c ∈ fmtInt02X i) : c ≠ 'x' := by
  rw [fmtInt02X] at hc
  by_cases hneg : i < 0
  · rw [if_pos hneg] at hc
    rcases List.mem_cons.mp hc with h | h
    · rw [h]; decide
    · exact padZero_no_x 1 _ c h
  · rw [if_neg hneg] at hc
    exact fmt02X_no_x _ c hc

/-- The fuel argument of `natLog2F` is irrelevant once it is at least `n`. -/
theorem natLog2F_fuel (fuel n : Nat) (h : n ≤ fuel) : natLog2F fuel n = natLog2 n := by
  match fuel, n with
  | 0, n =>
    have : n = 0 := by omega
    subst this
    rfl
  | f + 1, n =>
    by_cases h2 : 2 ≤ n
    · obtain ⟨m, rfl⟩ : ∃ m, n = m + 1 := ⟨n - 1, by omega⟩
      rw [natLog2F, if_pos h2, natLog2F_fuel f ((m + 1) / 2) (by omega)]
      conv_rhs => rw [natLog2, natLog2F, if_pos h2]
      rw [natLog2F_fuel m ((m + 1) / 2) (by omega)]
    · match n, h2 with
      | 0, _ => rfl
      | 1, _ => rfl
      | m + 2, h2 => exact absurd (by omega) h2
termination_by fuel
decreasing_by all_goals omega

/-- One division step of the base-2 logarithm. -/
theorem natLog2_step (n : Nat) (h : 2 ≤ n) : natLog2 n = natLog2 (n / 2) + 1 := by
  obtain ⟨m, rfl⟩ : ∃ m, n = m + 1 := ⟨n - 1, by omega⟩
  rw [natLog2, natLog2F, if_pos h, natLog2F_fuel m ((m + 1) / 2) (by omega)]

/-- Doubling increments the base-2 logarithm. -/
theorem natLog2_double (m : Nat) (hm : 0 < m) : natLog2 (2 * m) = natLog2 m + 1 := by
  rw [natLog2_step (2 * m) (by omega), Nat.mul_div_cancel_left m (by omega)]

/-- An even split rounds to exactly one half: `m / 2m` is representable. -/
theorem rnd64Mag_half (m : Nat) (hm : 0 < m) :
    rnd64Mag m (2 * m) = (2 ^ 52, 2 ^ 53) := by
  have hcond : pow2Le (-1) m (2 * m) = true := by
    rw [pow2Le, if_neg (by omega)]
    simp
  have hk : binadeExp m (2 * m) = -1 := by
    simp only [binadeExp]
    rw [show (natLog2 m : ℤ) - (natLog2 (2 * m) : ℤ) = -1 from by
      rw [natLog2_double m hm]; push_cast; ring]
    rw [if_pos hcond]
  have hquot : m * 2 ^ 53 = 2 ^ 52 * (2 * m) := by ring
  have hf : m * 2 ^ 53 / (2 * m) = 2 ^ 52 := by
    rw [hquot, Nat.mul_div_cancel _ (by omega)]
  have hr : m * 2 ^ 53 % (2 * m) = 0 := by
    rw [hquot, Nat.mul_mod_left]
  have hrne : rneMag (m * 2 ^ 53) (2 * m) = 2 ^ 52 := by
    simp only [rneMag, hf, hr]
    rw [if_pos (by omega)]
  simp only [rnd64Mag, hk]
  norm_num
  refine ⟨?_, by decide⟩
  rw [show ((53 : ℤ)).toNat = 53 from rfl, hrne]
  norm_num

/-- An even nonzero split yields the 50% duty byte. -/
theorem dutyByte_half (h : ℤ) (hpos : 0 < h) : dutyByte h (h + h) = toL "32" := by
  have hm : (h + h).natAbs = 2 * h.natAbs := by omega
  have hm0 : 0 < h.natAbs := by omega
  rw [dutyByte, hm, rnd64Mag_half h.natAbs hm0]
  rw [if_neg (by omega)]
  decide

/-- C4 (amended): the duty bytes are the truncation toward zero of the
IEEE-754 binary64 evaluation of `high/total*100` and `low/total*100`
(correctly-rounded division, then correctly-rounded multiplication by 100)
— not the exact integer floor, from which the double rounding can deviate;
when `high + low = 0` both duty bytes are `0x32`, and an even nonzero split
also yields `0x32` on the high side. -/
theorem C4_duty_model :
    (∀ hi lo : ℤ, hi + lo = 0 → pyDuty hi lo = (toL "32", toL "32")) ∧
    (∀ h : ℤ, 0 < h → pyDuty h h = (toL "32", toL "32")) ∧
    pyDuty 29 71 = (toL "1C", toL "47") ∧
    b1_to_b0 frameZeroDuty 20 = .ok (some (getConv (b1_to_b0 frameZeroDuty 20))) ∧
    (getConv (b1_to_b0 frameZeroDuty 20)).bitHighDuty = toL "32" ∧
    (getConv (b1_to_b0 frameZeroDuty 20)).bitLowDuty = toL "32" := by
  refine ⟨?_, ?_, by decide, rfl, by decide, by decide⟩
  · intro hi lo hz
    rw [pyDuty]
    simp only [hz]
    rw [if_neg (by omega)]
  · intro h hpos
    rw [pyDuty, if_pos (by omega)]
    rw [dutyByte_half h hpos]

/-- C4 witness: the even-split clause of `C4_duty_model` at `h = 3`. -/
theorem C4_duty_model_witness :
    (0 : ℤ) < 3 ∧ pyDuty 3 3 = (toL "32", toL "32") :=
  ⟨by decide, C4_duty_model.2.1 3 (by decide)⟩

/-- C4 counterexample: with `bit_high_time = 0x1D = 29` and `bit_low_time
= 0x47 = 71` the exact floor of `29/100*100` is 29 (`0x1D`), but the
program computes `int(float(29/100)*100) = 28` and emits `0x1C`. -/
theorem C4_counterexample :
    b1_to_b0 frameDuty2971 20 = .ok (some (getConv (b1_to_b0 frameDuty2971 20))) ∧
    parseHexInt (toL "001D") = some 29 ∧
    parseHexInt (toL "0047") = some 71 ∧
    (29 * 100) / (29 + 71) = (29 : ℤ) ∧
    fmt02X 29 = toL "1D" ∧
    (getConv (b1_to_b0 frameDuty2971 20)).bitHighDuty = toL "1C" ∧
    toL "1C" ≠ toL "1D" :=
  ⟨rfl, by decide, by decide, by decide, by decide, by decide, by decide⟩

/-- Inversion: a successful conversion determines all intermediate
components, and the result is their `mkConvOut` assembly. -/
theorem convertParts_ok_inv (parts : List PyStr) (r : ℤ) (res : ConvOut)
    (h : convertParts parts r = .ok (some res)) :
    ∃ nbI bucketToks data trailer syncHigh syncLow bitHighTime bitLowTime highVal lowVal,
      parseHexInt (parts.getD 2 []) = some nbI ∧
      collectBuckets parts nbI = some bucketToks ∧
      pyGetI parts (3 + nbI) = some data ∧
      pyGetI parts (3 + nbI + 1) = some trailer ∧
      pyGetI parts 6 = some syncHigh ∧
      pyGetI parts 3 = some syncLow ∧
      pyGetI parts 5 = some bitHighTime ∧
      pyGetI parts 4 = some bitLowTime ∧
      parseHexInt bitHighTime = some highVal ∧
      parseHexInt bitLowTime = some lowVal ∧
      res = mkConvOut parts r bucketToks data trailer syncHigh syncLow
        bitHighTime bitLowTime highVal lowVal := by
  unfold convertParts at h
  split at h
  · simp at h
  · split at h
    · exact Except.noConfusion h
    · rename_i nbI hnb
      split at h
      · exact Except.noConfusion h
      · rename_i bucketToks hbk
        split at h
        · exact Except.noConfusion h
        · rename_i data hdata
          split at h
          · exact Except.noConfusion h
          · rename_i trailer htr
            split at h
            · exact Except.noConfusion h
            · rename_i syncHigh h6
              split at h
              · exact Except.noConfusion h
              · rename_i syncLow h3
                split at h
                · exact Except.noConfusion h
                · rename_i bitHighTime h5
                  split at h
                  · exact Except.noConfusion h
                  · rename_i bitLowTime h4
                    split at h
                    · exact Except.noConfusion h
                    · rename_i highVal hhv
                      split at h
                      · exact Except.noConfusion h
                      · rename_i lowVal hlv
                        simp only [Except.ok.injEq, Option.some.injEq] at h
                        exact ⟨nbI, bucketToks, data, trailer, syncHigh, syncLow,
                          bitHighTime, bitLowTime, highVal, lowVal, hnb, hbk, hdata,
                          htr, h6, h3, h5, h4, hhv, hlv, h.symm⟩

/-- Forward construction: when every component lookup succeeds, the
conversion succeeds with the `mkConvOut` assembly. -/
theorem convertParts_ok_of (parts : List PyStr) (r : ℤ) (nbI : ℤ)
    (bucketToks : List PyStr) (data trailer syncHigh syncLow bitHighTime bitLowTime : PyStr)
    (highVal lowVal : ℤ)
    (hcond : ¬(parts.length < 4 ∨ pyUpperL (parts.getD 1 []) ≠ toL "B1"))
    (hnb : parseHexInt (parts.getD 2 []) = some nbI)
    (hbk : collectBuckets parts nbI = some bucketToks)
    (hdata : pyGetI parts (3 + nbI) = some data)
    (htr : pyGetI parts (3 + nbI + 1) = some trailer)
    (h6 : pyGetI parts 6 = some syncHigh)
    (h3 : pyGetI parts 3 = some syncLow)
    (h5 : pyGetI parts 5 = some bitHighTime)
    (h4 : pyGetI parts 4 = some bitLowTime)
    (hhv : parseHexInt bitHighTime = some highVal)
    (hlv : parseHexInt bitLowTime = some lowVal) :
    convertParts parts r = .ok (some (mkConvOut parts r bucketToks data trailer
      syncHigh syncLow bitHighTime bitLowTime highVal lowVal)) := by
  unfold convertParts
  rw [if_neg hcond]
  simp only [hnb, hbk, hdata, htr, h6, h3, h5, h4, hhv, hlv]

/-- C10: for every frame the conversion accepts, the emitted hex data has
exactly `⌊n / 4⌋` hex digits where `n` is the decoded bit count encoded in
the `bit_count` field — the two fields are always consistent. -/
theorem C10_hexdata_bitcount (parts : List PyStr) (r : ℤ) (res : ConvOut)
    (h : convertParts parts r = .ok (some res)) :
    res.hexData.length = res.bits.length / 4 ∧
    parseHexDigits res.bitCountHex = some res.bits.length := by
  obtain ⟨nbI, bk, data, tr, sh, sl, bht, blt, hv, lv, _, _, _, _, _, _, _, _, _, _, hres⟩ :=
    convertParts_ok_inv parts r res h
  subst hres
  exact ⟨hexOfBits_length _, parseHexDigits_fmt02X _⟩

/-- C10 witness: the field consistency at the manual's example frame. -/
theorem C10_witness :
    b1_to_b0 frameSpec 20 = .ok (some (getConv (b1_to_b0 frameSpec 20))) ∧
    (getConv (b1_to_b0 frameSpec 20)).hexData.length
      = (getConv (b1_to_b0 frameSpec 20)).bits.length / 4 ∧
    parseHexDigits (getConv (b1_to_b0 frameSpec 20)).bitCountHex
      = some (getConv (b1_to_b0 frameSpec 20)).bits.length :=
  ⟨rfl, C10_hexdata_bitcount (pySplitWs frameSpec) 20 _ rfl⟩

/-- C9 (amended): the `bit_count` field is the decoded bit count rendered
as at-least-2-digit uppercase hex; counts above 255 are not an error — the
field merely widens beyond one byte (no `OverflowError` exists). -/
theorem C9_bit_count (parts : List PyStr) (r : ℤ) (res : ConvOut)
    (h : convertParts parts r = .ok (some res)) :
    res.bitCountHex = fmt02X res.bits.length ∧
    (res.bits.length ≤ 255 → res.bitCountHex.length = 2) ∧
    (256 ≤ res.bits.length → 3 ≤ res.bitCountHex.length) := by
  obtain ⟨nbI, bk, data, tr, sh, sl, bht, blt, hv, lv, _, _, _, _, _, _, _, _, _, _, hres⟩ :=
    convertParts_ok_inv parts r res h
  subst hres
  refine ⟨rfl, fun hle => ?_, fun hgt => ?_⟩
  · exact fmt02X_length_of_le _ hle
  · exact fmt02X_length_of_gt _ hgt

/-- C9 witness: the `bit_count` relations at a small frame. -/
theorem C9_bit_count_witness :
    b1_to_b0 frameBits55 20 = .ok (some (getConv (b1_to_b0 frameBits55 20))) ∧
    (getConv (b1_to_b0 frameBits55 20)).bitCountHex
      = fmt02X (getConv (b1_to_b0 frameBits55 20)).bits.length ∧
    (getConv (b1_to_b0 frameBits55 20)).bits.length ≤ 255 ∧
    (getConv (b1_to_b0 frameBits55 20)).bitCountHex.length = 2 :=
  ⟨rfl, (C9_bit_count (pySplitWs frameBits55) 20 _ rfl).1, by decide,
    (C9_bit_count (pySplitWs frameBits55) 20 _ rfl).2.1 (by decide)⟩

set_option maxRecDepth 100000 in
/-- C9 counterexample: a frame decoding to 256 bits converts without any
error and its `bit_count` field is the 3-character `100`, not a byte. -/
theorem C9_counterexample :
    b1_to_b0 frameManyBits 20 = .ok (some (getConv (b1_to_b0 frameManyBits 20))) ∧
    (getConv (b1_to_b0 frameManyBits 20)).bits.length = 256 ∧
    (getConv (b1_to_b0 frameManyBits 20)).bitCountHex = toL "100" ∧
    (getConv (b1_to_b0 frameManyBits 20)).bitCountHex.length ≠ 2 :=
  ⟨rfl, by decide, by decide, by decide⟩

/-- A string without `x` is left unchanged by replacing `"xx"`. -/
theorem pyReplaceF_no_x (fuel : Nat) (s rep : PyStr) (hf : s.length ≤ fuel)
    (hx : 'x' ∉ s) : pyReplaceF fuel s ['x', 'x'] rep = s := by
  match fuel, s with
  | fuel, [] =>
    match fuel with
    | 0 => rfl
    | _ + 1 => rfl
  | 0, c :: rest => simp at hf
  | f + 1, c :: rest =>
    have hc : c ≠ 'x' := fun hcx => hx (hcx ▸ List.mem_cons_self c rest)
    rw [pyReplaceF, if_neg ?cond]
    case cond =>
      intro hpre
      simp [List.isPrefixOf] at hpre
      exact hc hpre.1.symm
    rw [pyReplaceF_no_x f rest rep (by simpa using hf) (fun hm => hx (List.mem_cons_of_mem c hm))]

/-- A non-`x` head is copied through unchanged. -/
theorem pyReplaceF_step_ne (f : Nat) (c : Char) (rest rep : PyStr) (hc : c ≠ 'x') :
    pyReplaceF (f + 1) (c :: rest) ['x', 'x'] rep = c :: pyReplaceF f rest ['x', 'x'] rep := by
  rw [pyReplaceF, if_neg ?cond]
  case cond =>
    intro hpre
    simp [List.isPrefixOf] at hpre
    exact hc hpre.1.symm

/-- A `"xx"` occurrence is replaced and skipped. -/
theorem pyReplaceF_step_xx (f : Nat) (t rep : PyStr) :
    pyReplaceF (f + 1) ('x' :: 'x' :: t) ['x', 'x'] rep
      = rep ++ pyReplaceF f t ['x', 'x'] rep := by
  rw [pyReplaceF, if_pos (by simp [List.isPrefixOf])]
  rfl

/-- Replacing the placeholder in an assembled B0 string whose tail is free
of `x`: exactly the placeholder changes. -/
theorem pyReplace_b0_header (t rep : PyStr) (hx : 'x' ∉ t) :
    pyReplace (toL "AAB0xx" ++ t) (toL "xx") rep = toL "AAB0" ++ rep ++ t := by
  have hform : toL "AAB0xx" ++ t = 'A' :: 'A' :: 'B' :: '0' :: 'x' :: 'x' :: t := rfl
  have hlen : (toL "AAB0xx" ++ t).length = t.length + 6 := by
    rw [hform]
    simp
  rw [pyReplace, hlen, hform]
  show pyReplaceF (t.length + 5 + 1) ('A' :: _) ['x', 'x'] rep = _
  rw [pyReplaceF_step_ne _ 'A' _ rep (by decide),
    pyReplaceF_step_ne _ 'A' _ rep (by decide),
    pyReplaceF_step_ne _ 'B' _ rep (by decide),
    pyReplaceF_step_ne _ '0' _ rep (by decide)]
  show _ = 'A' :: 'A' :: 'B' :: '0' :: (rep ++ t)
  rw [pyReplaceF_step_xx _ t rep,
    pyReplaceF_no_x (t.length + 1) t rep (by omega) hx]

/-- `getD` with default `[]` returns an element or the default. -/
theorem getD_mem_or_nil (l : List PyStr) (i : Nat) :
    l.getD i [] ∈ l ∨ l.getD i [] = [] := by
  by_cases h : i < l.length
  · left
    rw [List.getD_eq_getElem l [] h]
    exact List.getElem_mem h
  · right
    exact List.getD_eq_default l [] (by omega)

/-- A successful Python subscript returns an element of the list. -/
theorem pyGetI_mem (l : List PyStr) (i : ℤ) (d : PyStr) (h : pyGetI l i = some d) :
    d ∈ l := by
  rw [pyGetI] at h
  split at h
  · exact List.get?_mem h
  · split at h
    · exact List.get?_mem h
    · exact Option.noConfusion h

/-- Every collected bucket token is one of the frame's tokens. -/
theorem collectBucketsGo_mem (parts : List PyStr) (i k : Nat) (bl : List PyStr)
    (h : collectBucketsGo parts i k = some bl) : ∀ t ∈ bl, t ∈ parts := by
  match k with
  | 0 =>
    rw [collectBucketsGo] at h
    cases h
    intro t ht
    exact absurd ht (List.not_mem_nil t)
  | k + 1 =>
    rw [collectBucketsGo] at h
    split at h
    · exact Option.noConfusion h
    · rename_i tok htok
      split at h
      · exact Option.noConfusion h
      · rename_i r hr
        cases h
        intro t ht
        rcases List.mem_cons.mp ht with h1 | h2
        · exact h1 ▸ List.get?_mem htok
        · exact collectBucketsGo_mem parts (i + 1) k r hr t h2

/-- C2 (amended): a successfully emitted B0 string carries, at the
placeholder position, exactly the hex rendering of `length =
total_hex_chars / 2 − 4` computed over the fully assembled string with the
placeholder still in place; recomputing the same formula from the emitted
string reproduces that value whenever the length fits in one byte. -/
theorem C2_b0_length (parts : List PyStr) (r : ℤ) (res : ConvOut)
    (h : convertParts parts r = .ok (some res))
    (hx : ∀ t ∈ parts, 'x' ∉ t) :
    res.lengthVal = res.b0Pre.length / 2 - 4 ∧
    res.b0Str = toL "AAB0" ++ fmt02X res.lengthVal ++ res.b0Pre.drop 6 ∧
    parseHexDigits (fmt02X res.lengthVal) = some res.lengthVal ∧
    (res.lengthVal ≤ 255 → res.b0Str.length / 2 - 4 = res.lengthVal) := by
  obtain ⟨nbI, bucketToks, data, trailer, sh, sl, bht, blt, hv, lv,
    hnb, hbk, hdata, htr, _, _, _, _, _, _, hres⟩ :=
    convertParts_ok_inv parts r res h
  subst hres
  have hb0Pre : (mkConvOut parts r bucketToks data trailer sh sl bht blt hv lv).b0Pre
      = toL "AAB0xx" ++ (parts.getD 2 [] ++ (fmtInt02X r
          ++ (bucketToks.flatten ++ (data ++ trailer)))) := by
    show ([toL "AA", toL "B0", toL "xx", parts.getD 2 [], fmtInt02X r]
        ++ bucketToks ++ [data, trailer]).flatten = _
    simp only [List.append_assoc, List.flatten_append, List.flatten_cons,
      List.flatten_nil, List.append_nil, List.append_assoc]
    rfl
  have hxt : 'x' ∉ parts.getD 2 [] ++ (fmtInt02X r
      ++ (bucketToks.flatten ++ (data ++ trailer))) := by
    intro hmem
    simp only [List.mem_append] at hmem
    rcases hmem with h2 | hrep | hbkt | hdt | htl
    · rcases getD_mem_or_nil parts 2 with hin | hnil
      · exact hx _ hin h2
      · rw [hnil] at h2
        exact absurd h2 (List.not_mem_nil _)
    · exact fmtInt02X_no_x r 'x' hrep rfl
    · obtain ⟨l, hl, hxl⟩ := List.mem_flatten.mp hbkt
      exact hx l (collectBucketsGo_mem parts 3 nbI.toNat bucketToks hbk l hl) hxl
    · exact hx data (pyGetI_mem parts (3 + nbI) data hdata) hdt
    · exact hx trailer (pyGetI_mem parts (3 + nbI + 1) trailer htr) htl
  have hdrop : (mkConvOut parts r bucketToks data trailer sh sl bht blt hv lv).b0Pre.drop 6
      = parts.getD 2 [] ++ (fmtInt02X r ++ (bucketToks.flatten ++ (data ++ trailer))) := by
    rw [hb0Pre]
    exact List.drop_left (toL "AAB0xx") _
  have hb0Str : (mkConvOut parts r bucketToks data trailer sh sl bht blt hv lv).b0Str
      = toL "AAB0" ++ fmt02X (mkConvOut parts r bucketToks data trailer sh sl bht blt hv lv).lengthVal
        ++ (mkConvOut parts r bucketToks data trailer sh sl bht blt hv lv).b0Pre.drop 6 := by
    show pyReplace (mkConvOut parts r bucketToks data trailer sh sl bht blt hv lv).b0Pre
        (toL "xx") _ = _
    rw [hdrop, hb0Pre, pyReplace_b0_header _ _ hxt]
    rfl
  refine ⟨rfl, hb0Str, parseHexDigits_fmt02X _, fun hle => ?_⟩
  have hlen : (mkConvOut parts r bucketToks data trailer sh sl bht blt hv lv).b0Str.length
      = (mkConvOut parts r bucketToks data trailer sh sl bht blt hv lv).b0Pre.length := by
    rw [hb0Str, hdrop, hb0Pre]
    simp only [List.length_append, fmt02X_length_of_le _ hle]
    rfl
  rw [hlen]
  rfl

/-- C2 witness: the length relations at the manual's example frame. -/
theorem C2_b0_length_witness :
    b1_to_b0 frameSpec 20 = .ok (some (getConv (b1_to_b0 frameSpec 20))) ∧
    (∀ t ∈ pySplitWs frameSpec, 'x' ∉ t) ∧
    (getConv (b1_to_b0 frameSpec 20)).lengthVal ≤ 255 ∧
    (getConv (b1_to_b0 frameSpec 20)).b0Str.length / 2 - 4
      = (getConv (b1_to_b0 frameSpec 20)).lengthVal :=
  ⟨rfl, by decide, by decide,
    (C2_b0_length (pySplitWs frameSpec) 20 _ rfl (by decide)).2.2.2 (by decide)⟩

set_option maxRecDepth 100000 in
/-- C2 counterexample: on a valid frame whose computed length is 261 the
placeholder is replaced by the three characters `105`, so recomputing
`total_hex_chars / 2 − 4` from the emitted string gives 262, not the
emitted length value 261. -/
theorem C2_counterexample :
    b1_to_b0 frameLongLen 20 = .ok (some (getConv (b1_to_b0 frameLongLen 20))) ∧
    (getConv (b1_to_b0 frameLongLen 20)).lengthVal = 261 ∧
    (getConv (b1_to_b0 frameLongLen 20)).b0Pre.length / 2 - 4 = 261 ∧
    fmt02X 261 = toL "105" ∧
    (getConv (b1_to_b0 frameLongLen 20)).b0Str.length / 2 - 4 = 262 ∧
    (261 : Nat) ≠ 262 :=
  ⟨rfl, by decide, by decide, by decide, by decide, by decide⟩

/-- A nonnegative in-range Python subscript is a plain list lookup. -/
theorem pyGetI_pos (l : List PyStr) (i : ℤ) (h0 : 0 ≤ i) (hlt : i.toNat < l.length) :
    pyGetI l i = some (l.getD i.toNat []) := by
  rw [pyGetI, if_pos h0, List.get?_eq_getElem?, List.getElem?_eq_getElem hlt,
    List.getD_eq_getElem l [] hlt]

/-- The bucket loop collects exactly the tokens at offsets `i, …, i+k-1`
when they all exist. -/
theorem collectBucketsGo_ok (parts : List PyStr) (k i : Nat) (h : i + k ≤ parts.length) :
    collectBucketsGo parts i k
      = some ((List.range k).map (fun j => parts.getD (i + j) [])) := by
  match k with
  | 0 => simp [collectBucketsGo]
  | k + 1 =>
    have hi : i < parts.length := by omega
    rw [collectBucketsGo, List.get?_eq_getElem?, List.getElem?_eq_getElem hi,
      collectBucketsGo_ok parts k (i + 1) (by omega)]
    simp only [List.range_succ_eq_map, List.map_cons, List.map_map, Option.some.injEq,
      List.cons.injEq]
    refine ⟨(List.getD_eq_getElem parts [] hi).symm.trans (by norm_num), ?_⟩
    refine List.map_congr_left fun j hj => ?_
    show parts.getD (i + 1 + j) [] = parts.getD (i + Nat.succ j) []
    congr 1
    omega

/-- An element of a mapped range at a valid index. -/
theorem range_map_getD (n j : Nat) (f : Nat → PyStr) (h : j < n) :
    ((List.range n).map f).getD j [] = f j := by
  rw [List.getD_eq_getElem _ _ (by simpa using h)]
  simp

/-- C6 (amended): the timing step never raises a dedicated error; the four
timing tokens are read from the absolute positions 6, 3, 5, 4, which equal
`buckets[3]`, `buckets[0]`, `buckets[2]`, `buckets[1]` exactly when the
frame has at least 4 buckets (and at least `3 + bucket_count + 2` tokens
with parseable timing tokens, in which case conversion succeeds). -/
theorem C6_bucket_timings (parts : List PyStr) (r : ℤ) (nbI : ℤ)
    (hmark : ¬(parts.length < 4 ∨ pyUpperL (parts.getD 1 []) ≠ toL "B1"))
    (hnb : parseHexInt (parts.getD 2 []) = some nbI)
    (h4 : 4 ≤ nbI)
    (hlen : 3 + nbI + 2 ≤ (parts.length : ℤ))
    (hhv : (parseHexInt (parts.getD 5 [])).isSome)
    (hlv : (parseHexInt (parts.getD 4 [])).isSome) :
    convertParts parts r = .ok (some (getConv (convertParts parts r))) ∧
    (getConv (convertParts parts r)).buckets.length = nbI.toNat ∧
    (getConv (convertParts parts r)).syncHigh
      = (getConv (convertParts parts r)).buckets.getD 3 [] ∧
    (getConv (convertParts parts r)).syncLow
      = (getConv (convertParts parts r)).buckets.getD 0 [] ∧
    (getConv (convertParts parts r)).bitHighTime
      = (getConv (convertParts parts r)).buckets.getD 2 [] ∧
    (getConv (convertParts parts r)).bitLowTime
      = (getConv (convertParts parts r)).buckets.getD 1 [] := by
  have hlenN : 3 + nbI.toNat + 2 ≤ parts.length := by omega
  obtain ⟨hv, hhv⟩ := Option.isSome_iff_exists.mp hhv
  obtain ⟨lv, hlv⟩ := Option.isSome_iff_exists.mp hlv
  have hbk : collectBuckets parts nbI
      = some ((List.range nbI.toNat).map (fun j => parts.getD (3 + j) [])) := by
    rw [collectBuckets]
    exact collectBucketsGo_ok parts nbI.toNat 3 (by omega)
  have hdata : pyGetI parts (3 + nbI) = some (parts.getD (3 + nbI).toNat []) :=
    pyGetI_pos parts (3 + nbI) (by omega) (by omega)
  have htr : pyGetI parts (3 + nbI + 1) = some (parts.getD (3 + nbI + 1).toNat []) :=
    pyGetI_pos parts (3 + nbI + 1) (by omega) (by omega)
  have h6 : pyGetI parts 6 = some (parts.getD 6 []) := by
    have := pyGetI_pos parts 6 (by omega) (by omega)
    simpa using this
  have h3 : pyGetI parts 3 = some (parts.getD 3 []) := by
    have := pyGetI_pos parts 3 (by omega) (by omega)
    simpa using this
  have h5 : pyGetI parts 5 = some (parts.getD 5 []) := by
    have := pyGetI_pos parts 5 (by omega) (by omega)
    simpa using this
  have h4g : pyGetI parts 4 = some (parts.getD 4 []) := by
    have := pyGetI_pos parts 4 (by omega) (by omega)
    simpa using this
  have heq := convertParts_ok_of parts r nbI _ _ _ _ _ _ _ hv lv
    hmark hnb hbk hdata htr h6 h3 h5 h4g hhv hlv
  rw [heq]
  have hg : getConv (Except.ok (some (mkConvOut parts r
      ((List.range nbI.toNat).map (fun j => parts.getD (3 + j) []))
      (parts.getD (3 + nbI).toNat []) (parts.getD (3 + nbI + 1).toNat [])
      (parts.getD 6 []) (parts.getD 3 []) (parts.getD 5 []) (parts.getD 4 [])
      hv lv))) = mkConvOut parts r
      ((List.range nbI.toNat).map (fun j => parts.getD (3 + j) []))
      (parts.getD (3 + nbI).toNat []) (parts.getD (3 + nbI + 1).toNat [])
      (parts.getD 6 []) (parts.getD 3 []) (parts.getD 5 []) (parts.getD 4 [])
      hv lv := rfl
  rw [hg]
  refine ⟨rfl, ?_, ?_, ?_, ?_, ?_⟩
  · show ((List.range nbI.toNat).map (fun j => parts.getD (3 + j) [])).length = nbI.toNat
    simp
  · show parts.getD 6 [] = ((List.range nbI.toNat).map (fun j => parts.getD (3 + j) [])).getD 3 []
    rw [range_map_getD _ 3 _ (by omega)]
  · show parts.getD 3 [] = ((List.range nbI.toNat).map (fun j => parts.getD (3 + j) [])).getD 0 []
    rw [range_map_getD _ 0 _ (by omega)]
  · show parts.getD 5 [] = ((List.range nbI.toNat).map (fun j => parts.getD (3 + j) [])).getD 2 []
    rw [range_map_getD _ 2 _ (by omega)]
  · show parts.getD 4 [] = ((List.range nbI.toNat).map (fun j => parts.getD (3 + j) [])).getD 1 []
    rw [range_map_getD _ 1 _ (by omega)]

/-- C6 witness: the bucket-index convention at the manual's example frame. -/
theorem C6_bucket_timings_witness :
    (4 : ℤ) ≤ 4 ∧
    convertParts (pySplitWs frameSpec) 20
      = .ok (some (getConv (convertParts (pySplitWs frameSpec) 20))) ∧
    (getConv (convertParts (pySplitWs frameSpec) 20)).syncHigh
      = (getConv (convertParts (pySplitWs frameSpec) 20)).buckets.getD 3 [] :=
  ⟨le_refl 4,
    (C6_bucket_timings (pySplitWs frameSpec) 20 4 (by decide) (by decide) (by decide)
      (by decide) (by decide) (by decide)).1,
    (C6_bucket_timings (pySplitWs frameSpec) 20 4 (by decide) (by decide) (by decide)
      (by decide) (by decide) (by decide)).2.2.1⟩

/-- C6 counterexample: a valid frame with only 2 buckets and 7 tokens
converts without any error — `sync_high` silently becomes the trailer and
`bit_high_time` the data section; no `InsufficientBucketsError` exists. -/
theorem C6_counterexample :
    b1_to_b0 frameTwoBuckets 20 = .ok (some (getConv (b1_to_b0 frameTwoBuckets 20))) ∧
    parseHexInt ((pySplitWs frameTwoBuckets).getD 2 []) = some 2 ∧
    (getConv (b1_to_b0 frameTwoBuckets 20)).buckets.length = 2 ∧
    (getConv (b1_to_b0 frameTwoBuckets 20)).syncHigh = toL "55" ∧
    (getConv (b1_to_b0 frameTwoBuckets 20)).dataSection = toL "1221" ∧
    (getConv (b1_to_b0 frameTwoBuckets 20)).bitHighTime = toL "1221" :=
  ⟨rfl, by decide, by decide, by decide, by decide, by decide⟩

/-- The selected maximum is an element of the list. -/
theorem argmaxFirst_mem (l : List PyStr) (f : PyStr → Nat) (b : PyStr)
    (h : argmaxFirst l f = some b) : b ∈ l := by
  induction l generalizing b with
  | nil => exact Option.noConfusion h
  | cons x xs ih =>
    rw [argmaxFirst] at h
    split at h
    · cases h
      exact List.mem_cons_self _ _
    · rename_i b2 hin
      split at h
      · cases h
        exact List.mem_cons_self _ _
      · cases h
        exact List.mem_cons_of_mem _ (ih _ hin)

/-- A `none` result only happens on the empty list. -/
theorem argmaxFirst_eq_none (l : List PyStr) (f : PyStr → Nat)
    (h : argmaxFirst l f = none) : l = [] := by
  rcases l with _ | ⟨x, xs⟩
  · rfl
  · rw [argmaxFirst] at h
    split at h
    · exact Option.noConfusion h
    · split at h <;> exact Option.noConfusion h

/-- The selected element has maximal `f` over the list. -/
theorem argmaxFirst_max (l : List PyStr) (f : PyStr → Nat) (b : PyStr)
    (h : argmaxFirst l f = some b) : ∀ y ∈ l, f y ≤ f b := by
  induction l generalizing b with
  | nil => exact Option.noConfusion h
  | cons x xs ih =>
    intro y hy
    rw [argmaxFirst] at h
    split at h
    · rename_i hin
      have hxs := argmaxFirst_eq_none xs f hin
      subst hxs
      cases h
      rcases List.mem_cons.mp hy with h1 | h1
      · exact h1 ▸ le_refl _
      · exact absurd h1 (List.not_mem_nil y)
    · rename_i b2 hin
      have hmax2 := ih b2 hin
      split at h
      · rename_i hc
        cases h
        rcases List.mem_cons.mp hy with h1 | h1
        · exact h1 ▸ le_refl _
        · exact le_trans (hmax2 y h1) hc
      · rename_i hc
        cases h
        rcases List.mem_cons.mp hy with h1 | h1
        · exact h1 ▸ le_of_not_le hc
        · exact hmax2 y h1

/-- A nonempty list always yields a maximum. -/
theorem argmaxFirst_cons_isSome (x : PyStr) (xs : List PyStr) (f : PyStr → Nat) :
    ∃ b, argmaxFirst (x :: xs) f = some b := by
  rw [argmaxFirst]
  rcases argmaxFirst xs f with _ | b2
  · exact ⟨x, rfl⟩
  · by_cases hc : f b2 ≤ f x
    · exact ⟨x, if_pos hc⟩
    · exact ⟨b2, if_neg hc⟩

/-- A head that is at least every later element wins (first-seen order). -/
theorem argmaxFirst_head (x : PyStr) (xs : List PyStr) (f : PyStr → Nat)
    (hmax : ∀ y ∈ xs, f y ≤ f x) : argmaxFirst (x :: xs) f = some x := by
  rw [argmaxFirst]
  rcases hin : argmaxFirst xs f with _ | b2
  · rfl
  · exact if_pos (hmax b2 (argmaxFirst_mem xs f b2 hin))

/-- Anything absent from the list has count zero. -/
theorem countEq_eq_zero_of_not_mem (l : List PyStr) (x : PyStr) (h : x ∉ l) :
    countEq l x = 0 := by
  induction l with
  | nil => rfl
  | cons a as ih =>
    have hax : ¬(a = x) := fun hax => h (hax ▸ List.mem_cons_self a as)
    have hrest := ih (fun hm => h (List.mem_cons_of_mem a hm))
    rw [countEq, List.filter_cons]
    simp only [hax, decide_eq_true_eq, if_neg]
    exact hrest

/-- Elements occur at least once. -/
theorem countEq_pos_of_mem (l : List PyStr) (x : PyStr) (h : x ∈ l) :
    1 ≤ countEq l x := by
  induction l with
  | nil => exact absurd h (List.not_mem_nil x)
  | cons a as ih =>
    rw [countEq, List.filter_cons]
    by_cases ha : a = x
    · simp [ha]
    · rcases List.mem_cons.mp h with h1 | h2
      · exact absurd h1.symm ha
      · simp only [ha, decide_eq_true_eq, if_neg]
        exact ih h2

/-- In a duplicate-free list every count is at most one. -/
theorem countEq_le_one_of_nodup (l : List PyStr) (hnd : l.Nodup) (x : PyStr) :
    countEq l x ≤ 1 := by
  induction l with
  | nil => exact Nat.zero_le 1
  | cons a as ih =>
    rcases List.nodup_cons.mp hnd with ⟨hna, hnd2⟩
    rw [countEq, List.filter_cons]
    by_cases ha : a = x
    · subst ha
      have h0 : countEq as a = 0 := countEq_eq_zero_of_not_mem as a hna
      rw [countEq] at h0
      simp [h0]
    · simp only [ha, decide_eq_true_eq, if_neg]
      exact ih hnd2

/-- Unpacking of the Boolean candidate filter. -/
theorem validCandB_parts (m : PyStr) (hm : validCandB m = true) :
    4 ≤ (pySplitWs m).length ∧ pyUpperL ((pySplitWs m).getD 1 []) = toL "B1" ∧
    ∃ nb : ℤ, parseHexInt ((pySplitWs m).getD 2 []) = some nb ∧ 0 ≤ nb ∧
      3 + nb < ((pySplitWs m).length : ℤ) := by
  simp only [validCandB] at hm
  rcases hpe : parseHexInt ((pySplitWs m).getD 2 []) with _ | nb
  · rw [hpe] at hm
    simp at hm
  · rw [hpe] at hm
    simp only [Bool.and_eq_true, decide_eq_true_eq] at hm
    exact ⟨hm.1.1, hm.1.2, nb, rfl, hm.2.1, hm.2.2⟩

/-- On a candidate accepted by the filter, the first selection loop yields
its data-section token. -/
theorem candDataTok_of_valid (m : PyStr) (hm : validCandB m = true) :
    candDataTok m = .ok (some (dataTokOf m)) := by
  obtain ⟨h4, hmark, nb, hpe, h0, hlt⟩ := validCandB_parts m hm
  have hcond : ¬((pySplitWs m).length < 4 ∨ pyUpperL ((pySplitWs m).getD 1 []) ≠ toL "B1") := by
    push_neg
    exact ⟨by omega, hmark⟩
  simp only [candDataTok, hpe]
  rw [if_neg hcond, if_pos hlt, pyGetI_pos _ _ (by omega) (by omega)]
  simp only [dataTokOf, hpe]

/-- On an all-valid candidate list the first loop collects exactly the
mapped data sections. -/
theorem dataSectionsOf_of_valid (ms : List PyStr) (hv : ∀ m ∈ ms, validCandB m = true) :
    dataSectionsOf ms = .ok (ms.map dataTokOf) := by
  induction ms with
  | nil => rfl
  | cons m ms ih =>
    rw [dataSectionsOf, candDataTok_of_valid m (hv m (List.mem_cons_self _ _)),
      ih (fun m2 hm2 => hv m2 (List.mem_cons_of_mem _ hm2))]
    rfl

/-- On an all-valid candidate list the second loop is a first-match scan
over the data sections. -/
theorem scanLoop_of_valid (mcd : PyStr) (ms : List PyStr)
    (hv : ∀ m ∈ ms, validCandB m = true) :
    scanLoop mcd ms = .ok (ms.find? (fun m => decide (dataTokOf m = mcd))) := by
  induction ms with
  | nil => rfl
  | cons m ms ih =>
    obtain ⟨h4, hmark, nb, hpe, h0, hlt⟩ := validCandB_parts m (hv m (List.mem_cons_self _ _))
    simp only [scanLoop, hpe]
    rw [if_neg (by omega), if_pos hlt, pyGetI_pos _ _ (by omega) (by omega)]
    have hdata : (pySplitWs m).getD (3 + nb).toNat [] = dataTokOf m := by
      simp only [dataTokOf, hpe]
    rw [hdata]
    show (if dataTokOf m = mcd then Except.ok (some m) else scanLoop mcd ms)
      = Except.ok (List.find? (fun m2 => decide (dataTokOf m2 = mcd)) (m :: ms))
    by_cases hd : dataTokOf m = mcd
    · rw [if_pos hd, List.find?_cons_of_pos _ (by simp [hd])]
    · rw [if_neg hd, List.find?_cons_of_neg _ (by simp [hd]),
        ih (fun m2 hm2 => hv m2 (List.mem_cons_of_mem _ hm2))]

/-- C1 (amended): when every candidate is valid and all data sections are
pairwise distinct, the Selector returns the first candidate — `Counter`
with all counts equal to 1 keeps the first-inserted value, and the scan
then stops at the first frame.  There is no similarity scoring. -/
theorem C1_first_when_distinct (m0 : PyStr) (ms : List PyStr)
    (hv : ∀ m ∈ m0 :: ms, validCandB m = true)
    (hnd : ((m0 :: ms).map dataTokOf).Nodup) :
    selectFrame (m0 :: ms) = .ok (some m0) := by
  have hmax : ∀ y ∈ ms.map dataTokOf,
      countEq ((m0 :: ms).map dataTokOf) y
        ≤ countEq ((m0 :: ms).map dataTokOf) (dataTokOf m0) := by
    intro y hy
    have h1 := countEq_le_one_of_nodup _ hnd y
    have h2 := countEq_pos_of_mem ((m0 :: ms).map dataTokOf) (dataTokOf m0)
      (by exact List.mem_cons_self _ _)
    omega
  simp only [selectFrame, dataSectionsOf_of_valid _ hv]
  rw [show (m0 :: ms).map dataTokOf = dataTokOf m0 :: ms.map dataTokOf from rfl,
    argmaxFirst_head _ _ _ (by
      rw [show dataTokOf m0 :: ms.map dataTokOf = (m0 :: ms).map dataTokOf from rfl]
      exact hmax)]
  show scanLoop (dataTokOf m0) (m0 :: ms) = Except.ok (some m0)
  rw [scanLoop_of_valid _ _ hv, List.find?_cons_of_pos _ (by simp)]

/-- C1 witness: with the all-distinct candidates A, B, C in that order the
first frame A is selected. -/
theorem C1_first_when_distinct_witness :
    (∀ m ∈ frameA :: [frameB, frameC], validCandB m = true) ∧
    ((frameA :: [frameB, frameC]).map dataTokOf).Nodup ∧
    selectFrame (frameA :: [frameB, frameC]) = .ok (some frameA) :=
  ⟨by decide, by decide,
    C1_first_when_distinct frameA [frameB, frameC] (by decide) (by decide)⟩

/-- C1 counterexample: with the same three all-distinct candidates ordered
C, A, B the Selector returns C (`9999`) — the claim's similarity rule would
require A or B, never C. -/
theorem C1_counterexample :
    selectFrame [frameC, frameA, frameB] = .ok (some frameC) ∧
    dataTokOf frameC = toL "9999" ∧
    dataTokOf frameA = toL "0102" ∧
    dataTokOf frameB = toL "0103" ∧
    toL "9999" ≠ toL "0102" ∧
    toL "9999" ≠ toL "0103" :=
  ⟨rfl, by decide, by decide, by decide, by decide, by decide⟩

/-- C5: when the most frequent data section occurs more than once, the
Selector returns a candidate whose data section has maximal frequency, and
it is the first-seen candidate carrying that data section. -/
theorem C5_mode_selection (ms : List PyStr)
    (hv : ∀ m ∈ ms, validCandB m = true)
    (hmode : ∃ X ∈ ms.map dataTokOf, 1 < countEq (ms.map dataTokOf) X) :
    selectFrame ms = .ok (some (selOf ms)) ∧
    (∀ y ∈ ms.map dataTokOf, countEq (ms.map dataTokOf) y
        ≤ countEq (ms.map dataTokOf) (dataTokOf (selOf ms))) ∧
    ms.find? (fun m => decide (dataTokOf m = dataTokOf (selOf ms))) = some (selOf ms) := by
  obtain ⟨X, hXmem, _⟩ := hmode
  rcases hms : ms with _ | ⟨m0, ms2⟩
  · rw [hms] at hXmem
    exact absurd hXmem (by simp)
  · subst hms
    obtain ⟨X0, hX0⟩ := argmaxFirst_cons_isSome (dataTokOf m0) (ms2.map dataTokOf)
      (countEq ((m0 :: ms2).map dataTokOf))
    have hX0full : argmaxFirst ((m0 :: ms2).map dataTokOf)
        (countEq ((m0 :: ms2).map dataTokOf)) = some X0 := hX0
    have hsel : selectFrame (m0 :: ms2)
        = Except.ok ((m0 :: ms2).find? (fun m => decide (dataTokOf m = X0))) := by
      simp only [selectFrame, dataSectionsOf_of_valid _ hv, hX0full]
      exact scanLoop_of_valid X0 _ hv
    have hX0mem : X0 ∈ (m0 :: ms2).map dataTokOf := argmaxFirst_mem _ _ _ hX0full
    obtain ⟨selc, hselc_mem, hselc_data⟩ := List.mem_map.mp hX0mem
    have hfind_some : ((m0 :: ms2).find? (fun m => decide (dataTokOf m = X0))).isSome := by
      rw [List.find?_isSome]
      exact ⟨selc, hselc_mem, by simp [hselc_data]⟩
    obtain ⟨sel, hfind⟩ := Option.isSome_iff_exists.mp hfind_some
    have hseldata : dataTokOf sel = X0 := by
      have := List.find?_some hfind
      simpa using this
    have hsel2 : selectFrame (m0 :: ms2) = Except.ok (some sel) := by
      rw [hsel, hfind]
    have hselOf : selOf (m0 :: ms2) = sel := by
      simp only [selOf, hsel2]
    rw [hselOf, hsel2, hseldata]
    exact ⟨rfl, argmaxFirst_max _ _ _ hX0full, hfind⟩

/-- C5 witness: for candidates `[X, X, Y]` the Selector returns the first
frame, whose data section is the repeated `AAAA`. -/
theorem C5_mode_selection_witness :
    (∀ m ∈ [frameX, frameX, frameY], validCandB m = true) ∧
    (∃ X ∈ [frameX, frameX, frameY].map dataTokOf,
      1 < countEq ([frameX, frameX, frameY].map dataTokOf) X) ∧
    selectFrame [frameX, frameX, frameY] = .ok (some (selOf [frameX, frameX, frameY])) ∧
    selOf [frameX, frameX, frameY] = frameX ∧
    dataTokOf (selOf [frameX, frameX, frameY]) = toL "AAAA" :=
  ⟨by decide, by decide,
    (C5_mode_selection [frameX, frameX, frameY] (by decide) (by decide)).1,
    rfl, by decide⟩

/-- C7 (amended): a payload contributes a candidate iff it has at least 4
tokens, token 1 equals `B1` case-insensitively, token 2 parses as hex, and
there are more than `3 + bucket_count` tokens (the trailer is NOT required
at classification); and the classification step raises (rather than drops)
exactly when the marker checks pass but token 2 is not hexadecimal. -/
theorem C7_classifier (m : PyStr) :
    (∀ d, candDataTok m = .ok (some d) ↔
      4 ≤ (pySplitWs m).length ∧
      pyUpperL ((pySplitWs m).getD 1 []) = toL "B1" ∧
      ∃ nb, parseHexInt ((pySplitWs m).getD 2 []) = some nb ∧
        3 + nb < ((pySplitWs m).length : ℤ) ∧
        pyGetI (pySplitWs m) (3 + nb) = some d) ∧
    (candDataTok m = .error PyErr.valueError ↔
      4 ≤ (pySplitWs m).length ∧
      pyUpperL ((pySplitWs m).getD 1 []) = toL "B1" ∧
      parseHexInt ((pySplitWs m).getD 2 []) = none) := by
  by_cases hcond : (pySplitWs m).length < 4 ∨ pyUpperL ((pySplitWs m).getD 1 []) ≠ toL "B1"
  · have hcand : candDataTok m = .ok none := by
      simp only [candDataTok]
      rw [if_pos hcond]
    rw [hcand]
    constructor
    · intro d
      constructor
      · intro h
        exact absurd h (by simp)
      · rintro ⟨h1, h2, -⟩
        rcases hcond with hc | hc
        · omega
        · exact absurd h2 hc
    · constructor
      · intro h
        exact Except.noConfusion h
      · rintro ⟨h1, h2, -⟩
        rcases hcond with hc | hc
        · omega
        · exact absurd h2 hc
  · have hcond2 := hcond
    push_neg at hcond2
    obtain ⟨hlen4, hmark⟩ := hcond2
    rcases hpe : parseHexInt ((pySplitWs m).getD 2 []) with _ | nb
    · have hcand : candDataTok m = .error PyErr.valueError := by
        simp only [candDataTok, hpe]
        rw [if_neg hcond]
      rw [hcand]
      constructor
      · intro d
        constructor
        · intro h
          exact Except.noConfusion h
        · rintro ⟨-, -, nb, hpe2, -⟩
          exact Option.noConfusion hpe2
      · exact ⟨fun _ => ⟨by omega, hmark, rfl⟩, fun _ => rfl⟩
    · by_cases hlt : 3 + nb < ((pySplitWs m).length : ℤ)
      · rcases hg : pyGetI (pySplitWs m) (3 + nb) with _ | d0
        · have hcand : candDataTok m = .error PyErr.indexError := by
            simp only [candDataTok, hpe, hg]
            rw [if_neg hcond, if_pos hlt]
          rw [hcand]
          constructor
          · intro d
            constructor
            · intro h
              exact Except.noConfusion h
            · rintro ⟨-, -, nb2, hpe2, -, hg2⟩
              injection hpe2 with hnb2
              subst hnb2
              rw [hg] at hg2
              exact Option.noConfusion hg2
          · constructor
            · intro h
              exact absurd h (by simp)
            · rintro ⟨-, -, hpe2⟩
              exact Option.noConfusion hpe2
        · have hcand : candDataTok m = .ok (some d0) := by
            simp only [candDataTok, hpe, hg]
            rw [if_neg hcond, if_pos hlt]
          rw [hcand]
          constructor
          · intro d
            constructor
            · intro h
              simp only [Except.ok.injEq, Option.some.injEq] at h
              exact ⟨by omega, hmark, nb, rfl, hlt, h ▸ hg⟩
            · rintro ⟨-, -, nb2, hpe2, hlt2, hg2⟩
              injection hpe2 with hnb2
              subst hnb2
              rw [hg] at hg2
              injection hg2 with hd
              rw [hd]
          · constructor
            · intro h
              exact Except.noConfusion h
            · rintro ⟨-, -, hpe2⟩
              exact Option.noConfusion hpe2
      · have hcand : candDataTok m = .ok none := by
          simp only [candDataTok, hpe]
          rw [if_neg hcond, if_neg hlt]
        rw [hcand]
        constructor
        · intro d
          constructor
          · intro h
            exact absurd h (by simp)
          · rintro ⟨-, -, nb2, hpe2, hlt2, -⟩
            injection hpe2 with hnb2
            subst hnb2
            exact absurd hlt2 hlt
        · constructor
          · intro h
            exact Except.noConfusion h
          · rintro ⟨-, -, hpe2⟩
            exact Option.noConfusion hpe2

/-- C7 witness: a well-formed minimal payload is accepted with its data
token, via the backward direction of the characterization. -/
theorem C7_classifier_witness :
    candDataTok (toL "AA B1 00 AB 55") = .ok (some (toL "AB")) :=
  ((C7_classifier (toL "AA B1 00 AB 55")).1 (toL "AB")).mpr
    ⟨by decide, by decide, 0, by decide, by decide, by decide⟩

/-- C7 counterexample: a payload with non-hex token 2 raises `ValueError`
instead of being dropped, and a 5-token payload (`3 + bucket_count + 1`
tokens, trailer missing) is accepted by the filter — the claim's
`≥ 3 + bucket_count + 2` bound would reject it — and then crashes during
encoding with an `IndexError`. -/
theorem C7_counterexample :
    candDataTok (toL "AA B1 ZZ 00") = .error PyErr.valueError ∧
    candDataTok (toL "AA B1 01 0102 1221") = .ok (some (toL "1221")) ∧
    (pySplitWs (toL "AA B1 01 0102 1221")).length = 5 ∧
    ¬(3 + 1 + 2 ≤ 5) ∧
    b1_to_b0 (toL "AA B1 01 0102 1221") 20 = .error PyErr.indexError :=
  ⟨rfl, rfl, by decide, by decide, rfl⟩

/-- A successful pattern attempt only captures a run containing `B1`. -/
theorem tryRfRaw_containsB1 (s cap r : PyStr) (h : tryRfRaw s = some (cap, r)) :
    containsB1 cap = true := by
  rw [tryRfRaw] at h
  split at h
  · exact Option.noConfusion h
  · split at h
    · exact Option.noConfusion h
    · split at h
      · exact Option.noConfusion h
      · split at h
        · exact Option.noConfusion h
        · split at h
          · exact Option.noConfusion h
          · split at h
            · exact Option.noConfusion h
            · split at h
              · split at h
                · rename_i hb1
                  injection h with hpair
                  injection hpair with hcap hr
                  exact hcap ▸ hb1
                · exact Option.noConfusion h
              · exact Option.noConfusion h

/-- Every extracted capture contains `B1`, at any fuel. -/
theorem findAllAux_containsB1 (fuel : Nat) (s p : PyStr)
    (hp : p ∈ findAllAux fuel s) : containsB1 p = true := by
  induction fuel generalizing s with
  | zero =>
    rcases s with _ | ⟨c, rest⟩ <;> exact absurd hp (List.not_mem_nil p)
  | succ f ih =>
    rcases s with _ | ⟨c, rest⟩
    · exact absurd hp (List.not_mem_nil p)
    · rw [findAllAux] at hp
      split at hp
      · rename_i cap r htry
        rcases List.mem_cons.mp hp with h1 | h2
        · exact h1 ▸ tryRfRaw_containsB1 _ _ _ htry
        · exact ih _ h2
      · exact ih _ hp

/-- C8 (amended): the Extractor returns, in order, exactly those quoted
`Data` values under an `RfRaw` key that contain `B1` case-insensitively,
verbatim (no whitespace stripping or upper-casing); in particular every
returned payload contains `B1`, and no input makes it fail. -/
theorem C8_extractor (s p : PyStr) (hp : p ∈ pyFindAll s) : containsB1 p = true :=
  findAllAux_containsB1 s.length s p hp

/-- C8 witness: a lowercase spaced capture, extracted and containing `b1`. -/
theorem C8_extractor_witness :
    toL "aa b1 04 0102 55" ∈ pyFindAll
      (toL "\"RfRaw\":\x7b\"Data\":\"aa b1 04 0102 55\"\x7d") ∧
    containsB1 (toL "aa b1 04 0102 55") = true :=
  ⟨by decide,
    C8_extractor (toL "\"RfRaw\":\x7b\"Data\":\"aa b1 04 0102 55\"\x7d")
      (toL "aa b1 04 0102 55") (by decide)⟩

/-- C8 counterexample: the extractor output keeps whitespace and lowercase
verbatim (the claim's normalized form differs), and a `Data` value under
`RfRaw` without `B1` is not returned at all. -/
theorem C8_counterexample :
    pyFindAll (toL "\"RfRaw\":\x7b\"Data\":\"aa b1 04 0102 55\"\x7d,\"RfRaw\":\x7b\"Data\":\"AA B0 11 22\"\x7d")
      = [toL "aa b1 04 0102 55"] ∧
    ' ' ∈ toL "aa b1 04 0102 55" ∧
    'a' ∈ toL "aa b1 04 0102 55" ∧
    toL "aa b1 04 0102 55" ≠ pyUpperL (toL "aa b1 04 0102 55") :=
  ⟨by decide, by decide, by decide, by decide⟩
